import Mathlib

/-! Adder: a shallow embedding of `drake/systems/framework/primitives/adder.cc`.

The embedding follows the C++ source function by function.

Modelling conventions:

* `VectorX<T>` is a `List T`; `rows()` is `List.length`; `VectorX<T>::Zero(k)` is
  `List.replicate k 0`; `+=` on two vectors is `List.zipWith (· + ·)`.
* The element type `T` is any type with `0` and `+`.  Theorems about the sum added in
  slot order onto the zero vector (`elementwiseSumInOrder`) need nothing more; theorems
  about the sum as a mathematical sum (`elementwiseSum`) are stated over exact
  arithmetic (an additive monoid), not over IEEE doubles.
* A `std::unique_ptr<VectorInterface<T>>` is `Option (List T)`: `none` for `nullptr`,
  otherwise the owned vector.
* A raw pointer `const VectorInterface<T>*` held by an input slot is
  `Option (VectorPointer T)`: `none` for `nullptr`, otherwise what it points at.  `Output`
  writes to exactly one vector object, the one owned by port 0 of `*output`.  A pointer
  is therefore either to that object (`VectorPointer.output_port`), and then every read
  through it sees what the object holds at that moment, or to some other vector object
  (`VectorPointer.external value`), which holds `value` throughout the call.
* `size_t` quantities and the loop counter `int i` are `Nat` (no wrap-around is modelled;
  the counter only ever holds an index smaller than the number of slots).
* `Output` mutates `*output` in place and either returns, throws `std::runtime_error`,
  or stops at a failed `assert`.  It is modelled as a function returning the final state
  of `*output` together with an `Outcome`.
* `std::to_string` on a non-negative integer is the decimal rendering `toString`.
-/

namespace drake
namespace systems

/-- The exception `std::runtime_error`, carrying its message. -/
structure runtime_error where
  what : String
  deriving DecidableEq, Repr

/-- How a call of a `void` member function ends. -/
inductive Outcome where
  /-- The call returned normally. -/
  | returned : Outcome
  /-- The call threw a `std::runtime_error`. -/
  | threw : runtime_error → Outcome
  /-- An `assert` at the start of the call failed. -/
  | assertion_failed : Outcome
  deriving DecidableEq, Repr

/-- What a non-null `const VectorInterface<T>*` points at during a call of
`Adder<T>::Output`: either a vector object that the call does not write to, holding
`value`, or the vector object owned by port 0 of the `SystemOutput` passed to the call. -/
inductive VectorPointer (T : Type) where
  /-- A pointer to a vector object other than the output's own, holding `value`. -/
  | external : List T → VectorPointer T
  /-- A pointer to the vector object owned by port 0 of `*output`. -/
  | output_port : VectorPointer T
  deriving DecidableEq, Repr

/-- The read `ptr->get_value()` at a moment when the vector owned by port 0 of `*output`
holds `current`. -/
def VectorPointer.get_value {T : Type} (current : List T) : VectorPointer T → List T
  | VectorPointer.external value => value
  | VectorPointer.output_port => current

/-- Modelled from the spec: `InputPort<T>` (its header is not under src/): a slot that
is either unbound (`nullptr`, here `none`) or bound, by a non-owning pointer, to a
vector. A default-constructed slot is unbound. -/
structure InputPort (T : Type) where
  input : Option (VectorPointer T) := none
  deriving DecidableEq, Repr

/-- Modelled from the spec: the `Input<T>` member of a context (its header is not under
src/): the ordered sequence of input-port slots, empty when default-constructed. -/
structure Input (T : Type) where
  continuous_ports : List (InputPort T) := []
  deriving DecidableEq, Repr

/-- Modelled from the spec: `Context<T>` (its header is not under src/), holding the
input slots. -/
structure Context (T : Type) where
  input : Input T := {}
  deriving DecidableEq, Repr

/-- Modelled from the spec: `OutputPort<T>` (its header is not under src/): a slot
owning a vector through a `unique_ptr`, which is `nullptr` (here `none`) until reset. -/
structure OutputPort (T : Type) where
  output : Option (List T) := none
  deriving DecidableEq, Repr

/-- Modelled from the spec: `SystemOutput<T>` (its header is not under src/): the ordered
sequence of output-port slots, empty when default-constructed. -/
structure SystemOutput (T : Type) where
  continuous_ports : List (OutputPort T) := []
  deriving DecidableEq, Repr

/-- Modelled from the spec: the constructor `BasicVector<T>(size)` (basic_vector.h is
not under src/): a freshly allocated vector of `size` elements, value-initialized to
zero. -/
def BasicVector (T : Type) [Zero T] (size : Nat) : List T :=
  List.replicate size 0

/-- The call `std::vector::resize(count)`: keeps the first `count` elements and appends
default-constructed elements until the size is `count`. -/
def resize {α : Type} (v : List α) (count : Nat) (dflt : α) : List α :=
  v.take count ++ List.replicate (count - v.length) dflt

/-- The class `Adder<T>`: its two data members, set by the constructor
`Adder(num_inputs, length)`. -/
structure Adder where
  num_inputs_ : Nat
  length_ : Nat
  deriving DecidableEq, Repr

namespace Adder

variable {T : Type}

/-- `Adder<T>::CreateDefaultContext`: a new context whose `continuous_ports` is resized
to `num_inputs_`. -/
def CreateDefaultContext (a : Adder) : Context T :=
  let context : Context T := {}
  { context with
    input := { continuous_ports := resize context.input.continuous_ports a.num_inputs_ {} } }

/-- `Adder<T>::CreateDefaultOutput`: a new output with one port pushed, whose vector is
`BasicVector<T>(length_)`. -/
def CreateDefaultOutput [Zero T] (a : Adder) : SystemOutput T :=
  let output : SystemOutput T := {}
  let port : OutputPort T := { output := some (BasicVector T a.length_) }
  { continuous_ports := output.continuous_ports ++ [port] }

/-- The message of the exception thrown at adder.cc:53-55. -/
def portCountMessage (num_inputs size : Nat) : String :=
  "Expected " ++ toString num_inputs ++ "input ports, but had " ++ toString size

/-- The message of the exception thrown at adder.cc:64-65. -/
def badInputMessage (i : Nat) : String :=
  "Input port " ++ toString i ++ "is nullptr or has incorrect size."

/-- The `for` loop of `Adder<T>::Output` (adder.cc:60-68), started at counter `i` with
`ports` the slots `continuous_ports[i..]` still to visit and `value` what the output
vector holds at that moment.  Each slot's pointer is read when the slot is visited, so
a slot bound to the output's own vector reads the running value.  Returns the output
vector when the loop stops and how it stopped. -/
def sumLoop [Add T] (length_ : Nat) :
    List (InputPort T) → Nat → List T → List T × Outcome
  | [], _, value => (value, Outcome.returned)
  | port :: ports, i, value =>
    match port.input with
    | none => (value, Outcome.threw ⟨badInputMessage i⟩)
    | some input =>
      if (input.get_value value).length ≠ length_ then
        (value, Outcome.threw ⟨badInputMessage i⟩)
      else
        sumLoop length_ ports (i + 1) (List.zipWith (· + ·) value (input.get_value value))

/-- Follows the spec's words ("the elementwise sum of the input vectors, in the order the
slots appear"): element `j` of the result, for `j < m`, is the sum of the elements `j`
of the vectors `vs`, taken in list order. -/
def elementwiseSum [Zero T] [Add T] (m : Nat) (vs : List (List T)) : List T :=
  (List.range m).map (fun j => (vs.map (fun v => v.getD j 0)).sum)

/-- Follows the spec's words ("the elementwise sum of the input vectors, in the order the
slots appear") for an element type whose addition need not be associative: element `j`
of the result, for `j < m`, is `0` with the elements `j` of the vectors `vs` added to it
one after the other, in list order. -/
def elementwiseSumInOrder [Zero T] [Add T] (m : Nat) (vs : List (List T)) : List T :=
  (List.range m).map (fun j => (vs.map (fun v => v.getD j 0)).foldl (· + ·) 0)

/-- The vectors the slots `ports` are bound to, in slot order, read while the output's
own vector holds `current` (unbound slots contribute nothing). -/
def boundVectors (current : List T) (ports : List (InputPort T)) : List (List T) :=
  ports.filterMap (fun p => p.input.map (VectorPointer.get_value current))

/-- A slot is well bound for length `m`, while the output's own vector holds `current`,
when it is bound to a vector of exactly `m` elements. -/
def wellBound (m : Nat) (current : List T) (p : InputPort T) : Prop :=
  ∃ ptr, p.input = some ptr ∧ (ptr.get_value current).length = m

instance (m : Nat) (current : List T) (p : InputPort T) :
    Decidable (wellBound m current p) :=
  match h : p.input with
  | none => isFalse (by rintro ⟨v, hv, _⟩; rw [h] at hv; cases hv)
  | some ptr =>
    if hl : (ptr.get_value current).length = m then isTrue ⟨ptr, h, hl⟩
    else isFalse (by rintro ⟨w, hw, hwl⟩; rw [h] at hw; cases hw; exact hl hwl)

/-- A slot aliases the output when it is bound to the vector owned by port 0 of
`*output`. -/
def aliasesOutput (p : InputPort T) : Prop :=
  p.input = some VectorPointer.output_port

instance (p : InputPort T) : Decidable (aliasesOutput p) :=
  match h : p.input with
  | none => isFalse (by intro hp; rw [aliasesOutput, h] at hp; cases hp)
  | some (VectorPointer.external _) =>
    isFalse (by intro hp; rw [aliasesOutput, h] at hp; cases hp)
  | some VectorPointer.output_port => isTrue h

/-- What the output vector holds after the loop has visited the slots `ports`, all of
them bound, starting from `value`: each slot's vector, read at that moment, is added. -/
def runSlots [Add T] (value : List T) (ports : List (InputPort T)) : List T :=
  ports.foldl
    (fun acc p =>
      match p.input with
      | none => acc
      | some ptr => List.zipWith (· + ·) acc (ptr.get_value acc))
    value

/-- A well-shaped output: exactly one port, owning the vector `value`. -/
def outputHolding (value : List T) : SystemOutput T :=
  { continuous_ports := [{ output := some value }] }

/-- The repeated `+=` of the vectors `vs`, in order, into the vector `value`. -/
def accumulate [Add T] (value : List T) (vs : List (List T)) : List T :=
  vs.foldl (fun acc v => List.zipWith (· + ·) acc v) value

/-- The three `assert`s at the start of `Adder<T>::Output` (adder.cc:45-48), as a test
on `*output`: exactly one port, whose vector pointer is not `nullptr`, and whose vector
has `length_` rows. -/
def structuralAssertions (a : Adder) (output : SystemOutput T) : Bool :=
  output.continuous_ports.length == 1 &&
    match output.continuous_ports.head? with
    | none => false
    | some port0 =>
      match port0.output with
      | none => false
      | some value => value.length == a.length_

/-- `Adder<T>::Output` (adder.cc:37-69).  The first component is `*output` after the
call, the second how the call ended. -/
def Output [Zero T] [Add T] (a : Adder) (context : Context T)
    (output : SystemOutput T) : SystemOutput T × Outcome :=
  match output.continuous_ports with
  | [port0] =>
    match port0.output with
    | none => (output, Outcome.assertion_failed)
    | some value =>
      if value.length ≠ a.length_ then
        (output, Outcome.assertion_failed)
      else
        let zeroed : List T := List.replicate a.length_ 0
        if context.input.continuous_ports.length ≠ a.num_inputs_ then
          ({ continuous_ports := [{ output := some zeroed }] },
            Outcome.threw
              ⟨portCountMessage a.num_inputs_ context.input.continuous_ports.length⟩)
        else
          let r := sumLoop a.length_ context.input.continuous_ports 0 zeroed
          ({ continuous_ports := [{ output := some r.1 }] }, r.2)
  | _ => (output, Outcome.assertion_failed)

/-! ## The summation loop -/

theorem zipWith_add_length [Add T] (m : Nat) (x y : List T)
    (hx : x.length = m) (hy : y.length = m) :
    (List.zipWith (· + ·) x y).length = m := by
  simp [List.length_zipWith, hx, hy]

theorem accumulate_length [Add T] (m : Nat) (vs : List (List T)) :
    ∀ value : List T, value.length = m → (∀ v ∈ vs, v.length = m) →
      (accumulate value vs).length = m := by
  induction vs with
  | nil => intro value hv _; simpa [accumulate] using hv
  | cons v vs ih =>
    intro value hv hvs
    have h1 : v.length = m := hvs v (List.mem_cons_self _ _)
    have h2 : ∀ w ∈ vs, w.length = m := fun w hw => hvs w (List.mem_cons_of_mem _ hw)
    have := ih (List.zipWith (· + ·) value v) (zipWith_add_length m value v hv h1) h2
    simpa [accumulate] using this

/-- Whether a slot is well bound depends on the output's vector only through its
length. -/
theorem wellBound_congr (m : Nat) (current current2 : List T) (p : InputPort T)
    (h : current.length = current2.length) :
    wellBound m current p ↔ wellBound m current2 p := by
  unfold wellBound
  constructor
  · rintro ⟨ptr, hp, hl⟩
    refine ⟨ptr, hp, ?_⟩
    cases ptr with
    | external v => exact hl
    | output_port => rw [← hl]; exact h.symm
  · rintro ⟨ptr, hp, hl⟩
    refine ⟨ptr, hp, ?_⟩
    cases ptr with
    | external v => exact hl
    | output_port => rw [← hl]; exact h

theorem sumLoop_all_wellBound [Add T] (m : Nat) (ports : List (InputPort T)) :
    ∀ (i : Nat) (value : List T), value.length = m →
      (∀ p ∈ ports, wellBound m value p) →
      sumLoop m ports i value = (runSlots value ports, Outcome.returned) := by
  induction ports with
  | nil => intro i value _ _; simp [sumLoop, runSlots]
  | cons p ports ih =>
    intro i value hvalue h
    obtain ⟨ptr, hv, hl⟩ := h p (List.mem_cons_self _ _)
    have hz := zipWith_add_length m value (ptr.get_value value) hvalue hl
    have h2 : ∀ q ∈ ports,
        wellBound m (List.zipWith (· + ·) value (ptr.get_value value)) q :=
      fun q hq => (wellBound_congr m _ _ q (by rw [hz, hvalue])).mp
        (h q (List.mem_cons_of_mem _ hq))
    have := ih (i + 1) _ hz h2
    simp [sumLoop, hv, hl, this, runSlots]

theorem sumLoop_bad_head [Add T] (m : Nat) (p : InputPort T) (rest : List (InputPort T))
    (i : Nat) (value : List T) (hp : ¬ wellBound m value p) :
    sumLoop m (p :: rest) i value = (value, Outcome.threw ⟨badInputMessage i⟩) := by
  cases hin : p.input with
  | none => simp [sumLoop, hin]
  | some ptr =>
    have hl : (ptr.get_value value).length ≠ m := fun hl => hp ⟨ptr, hin, hl⟩
    simp [sumLoop, hin, hl]

theorem sumLoop_first_bad [Add T] (m : Nat) (good : List (InputPort T)) :
    ∀ (p : InputPort T) (rest : List (InputPort T)) (i : Nat) (value : List T),
      value.length = m → (∀ q ∈ good, wellBound m value q) → ¬ wellBound m value p →
      sumLoop m (good ++ p :: rest) i value =
        (runSlots value good, Outcome.threw ⟨badInputMessage (i + good.length)⟩) := by
  induction good with
  | nil =>
    intro p rest i value _ _ hp
    simpa [runSlots] using sumLoop_bad_head m p rest i value hp
  | cons g good ih =>
    intro p rest i value hvalue h hp
    obtain ⟨ptr, hv, hl⟩ := h g (List.mem_cons_self _ _)
    have hz := zipWith_add_length m value (ptr.get_value value) hvalue hl
    have hc : value.length =
        (List.zipWith (· + ·) value (ptr.get_value value)).length := by rw [hz, hvalue]
    have h2 : ∀ q ∈ good,
        wellBound m (List.zipWith (· + ·) value (ptr.get_value value)) q :=
      fun q hq => (wellBound_congr m _ _ q hc).mp (h q (List.mem_cons_of_mem _ hq))
    have hp2 : ¬ wellBound m (List.zipWith (· + ·) value (ptr.get_value value)) p :=
      fun hq => hp ((wellBound_congr m _ _ p hc).mpr hq)
    have := ih p rest (i + 1) _ hz h2 hp2
    simp [sumLoop, hv, hl, this, runSlots]
    congr 1
    omega

theorem sumLoop_returned_wellBound [Add T] (m : Nat) (ports : List (InputPort T)) :
    ∀ (i : Nat) (value : List T), value.length = m →
      (sumLoop m ports i value).2 = Outcome.returned →
      ∀ p ∈ ports, wellBound m value p := by
  induction ports with
  | nil => intro i value _ _ p hp; cases hp
  | cons q ports ih =>
    intro i value hvalue h p hp
    by_cases hq : wellBound m value q
    · obtain ⟨ptr, hv, hl⟩ := hq
      rcases List.mem_cons.mp hp with rfl | hp2
      · exact ⟨ptr, hv, hl⟩
      · have hz := zipWith_add_length m value (ptr.get_value value) hvalue hl
        simp [sumLoop, hv, hl] at h
        exact (wellBound_congr m _ _ p (by rw [hz, hvalue])).mp (ih _ _ hz h p hp2)
    · rw [sumLoop_bad_head m q ports i value hq] at h
      cases h

theorem sumLoop_length [Add T] (m : Nat) (ports : List (InputPort T)) :
    ∀ (i : Nat) (value : List T), value.length = m →
      (sumLoop m ports i value).1.length = m := by
  induction ports with
  | nil => intro i value hv; simpa [sumLoop] using hv
  | cons p ports ih =>
    intro i value hv
    cases hin : p.input with
    | none => simpa [sumLoop, hin] using hv
    | some ptr =>
      by_cases hl : (ptr.get_value value).length = m
      · have := ih (i + 1) _ (zipWith_add_length m value (ptr.get_value value) hv hl)
        simpa [sumLoop, hin, hl] using this
      · simpa [sumLoop, hin, hl] using hv

theorem runSlots_length [Add T] (m : Nat) (ports : List (InputPort T))
    (value : List T) (hvalue : value.length = m)
    (h : ∀ p ∈ ports, wellBound m value p) : (runSlots value ports).length = m := by
  have h1 := sumLoop_length m ports 0 value hvalue
  rw [sumLoop_all_wellBound m ports 0 value hvalue h] at h1
  exact h1

/-- When no slot aliases the output, the loop adds the bound vectors as they were before
the call. -/
theorem runSlots_of_not_aliased [Add T] (ports : List (InputPort T)) :
    ∀ (value current : List T), (∀ p ∈ ports, ¬ aliasesOutput p) →
      runSlots value ports = accumulate value (boundVectors current ports) := by
  induction ports with
  | nil => intro value current _; rfl
  | cons p ports ih =>
    intro value current h
    have h2 : ∀ q ∈ ports, ¬ aliasesOutput q := fun q hq => h q (List.mem_cons_of_mem _ hq)
    have hp := h p (List.mem_cons_self _ _)
    cases hin : p.input with
    | none => simpa [runSlots, accumulate, boundVectors, hin] using ih value current h2
    | some ptr =>
      cases ptr with
      | output_port => exact absurd hin hp
      | external v =>
        have := ih (List.zipWith (· + ·) value v) current h2
        simpa [runSlots, accumulate, boundVectors, hin, VectorPointer.get_value] using this

/-! ## The accumulated vector is the elementwise sum -/

theorem getD_zipWith_add [Zero T] [Add T] (m : Nat) (x y : List T)
    (hx : x.length = m) (hy : y.length = m) (j : Nat) (hj : j < m) :
    (List.zipWith (· + ·) x y).getD j 0 = x.getD j 0 + y.getD j 0 := by
  have h1 : j < (List.zipWith (· + ·) x y).length := by
    rw [zipWith_add_length m x y hx hy]; exact hj
  have h2 : j < x.length := by omega
  have h3 : j < y.length := by omega
  rw [List.getD_eq_getElem _ _ h1, List.getD_eq_getElem _ _ h2, List.getD_eq_getElem _ _ h3]
  simp

theorem map_getD_range [Zero T] (m : Nat) (x : List T) (hx : x.length = m) :
    (List.range m).map (fun j => x.getD j 0) = x := by
  apply List.ext_getElem
  · simp [hx]
  · intro j h1 h2
    simp [List.getElem?_eq_getElem h2]

theorem accumulate_eq [AddMonoid T] (m : Nat) (vs : List (List T)) :
    ∀ value : List T, value.length = m → (∀ v ∈ vs, v.length = m) →
      accumulate value vs =
        (List.range m).map (fun j => value.getD j 0 + (vs.map (fun v => v.getD j 0)).sum) := by
  induction vs with
  | nil =>
    intro value hv _
    have h := map_getD_range m value hv
    simp only [accumulate, List.foldl_nil, List.map_nil, List.sum_nil, add_zero]
    exact h.symm
  | cons v vs ih =>
    intro value hv hvs
    have h1 : v.length = m := hvs v (List.mem_cons_self _ _)
    have h2 : ∀ w ∈ vs, w.length = m := fun w hw => hvs w (List.mem_cons_of_mem _ hw)
    have h3 := ih (List.zipWith (· + ·) value v) (zipWith_add_length m value v hv h1) h2
    have h4 : accumulate value (v :: vs) = accumulate (List.zipWith (· + ·) value v) vs := rfl
    rw [h4, h3]
    apply List.map_congr_left
    intro j hj
    have hj2 : j < m := List.mem_range.mp hj
    rw [getD_zipWith_add m value v hv h1 j hj2]
    simp [add_assoc]

theorem accumulate_zero_eq_elementwiseSum [AddMonoid T] (m : Nat) (vs : List (List T))
    (hvs : ∀ v ∈ vs, v.length = m) :
    accumulate (List.replicate m (0 : T)) vs = elementwiseSum m vs := by
  rw [accumulate_eq m vs (List.replicate m 0) (by simp) hvs]
  unfold elementwiseSum
  apply List.map_congr_left
  intro j hj
  have hj2 : j < m := List.mem_range.mp hj
  simp [List.getD_eq_getElem?_getD, hj2]

theorem accumulate_eq_inOrder [Zero T] [Add T] (m : Nat) (vs : List (List T)) :
    ∀ value : List T, value.length = m → (∀ v ∈ vs, v.length = m) →
      accumulate value vs =
        (List.range m).map
          (fun j => (vs.map (fun v => v.getD j 0)).foldl (· + ·) (value.getD j 0)) := by
  induction vs with
  | nil =>
    intro value hv _
    have h := map_getD_range m value hv
    simp only [accumulate, List.foldl_nil, List.map_nil]
    exact h.symm
  | cons v vs ih =>
    intro value hv hvs
    have h1 : v.length = m := hvs v (List.mem_cons_self _ _)
    have h2 : ∀ w ∈ vs, w.length = m := fun w hw => hvs w (List.mem_cons_of_mem _ hw)
    have h3 := ih (List.zipWith (· + ·) value v) (zipWith_add_length m value v hv h1) h2
    have h4 : accumulate value (v :: vs) = accumulate (List.zipWith (· + ·) value v) vs := rfl
    rw [h4, h3]
    apply List.map_congr_left
    intro j hj
    have hj2 : j < m := List.mem_range.mp hj
    rw [getD_zipWith_add m value v hv h1 j hj2]
    rfl

theorem accumulate_zero_eq_elementwiseSumInOrder [Zero T] [Add T] (m : Nat)
    (vs : List (List T)) (hvs : ∀ v ∈ vs, v.length = m) :
    accumulate (List.replicate m (0 : T)) vs = elementwiseSumInOrder m vs := by
  rw [accumulate_eq_inOrder m vs (List.replicate m 0) (by simp) hvs]
  unfold elementwiseSumInOrder
  apply List.map_congr_left
  intro j hj
  have hj2 : j < m := List.mem_range.mp hj
  simp [List.getD_eq_getElem?_getD, hj2]

theorem boundVectors_length (m : Nat) (current : List T) (ports : List (InputPort T))
    (h : ∀ p ∈ ports, wellBound m current p) :
    ∀ v ∈ boundVectors current ports, v.length = m := by
  intro v hv
  obtain ⟨p, hp, hpv⟩ := List.mem_filterMap.mp hv
  obtain ⟨w, hw, hl⟩ := h p hp
  rw [hw] at hpv
  cases hpv
  exact hl

theorem boundVectors_length_eq (m : Nat) (current : List T) (ports : List (InputPort T))
    (h : ∀ p ∈ ports, wellBound m current p) :
    (boundVectors current ports).length = ports.length := by
  unfold boundVectors
  induction ports with
  | nil => rfl
  | cons p ports ih =>
    obtain ⟨v, hv, _⟩ := h p (List.mem_cons_self _ _)
    have h2 : ∀ q ∈ ports, wellBound m current q :=
      fun q hq => h q (List.mem_cons_of_mem _ hq)
    simp [List.filterMap_cons, hv, ih h2]

/-- A slot fails to be well bound exactly when it is unbound or bound to a vector of
another length. -/
theorem not_wellBound_iff (m : Nat) (current : List T) (p : InputPort T) :
    ¬ wellBound m current p ↔
      p.input = none ∨ ∃ ptr, p.input = some ptr ∧ (ptr.get_value current).length ≠ m := by
  unfold wellBound
  cases h : p.input with
  | none => simp
  | some v => simp

/-! ## Locating the first unusable slot -/

theorem exists_first_bad (m : Nat) (current : List T) (ports : List (InputPort T))
    (h : ¬ ∀ p ∈ ports, wellBound m current p) :
    ∃ good p rest, ports = good ++ p :: rest ∧ (∀ q ∈ good, wellBound m current q) ∧
      ¬ wellBound m current p := by
  induction ports with
  | nil => exact absurd (fun p hp => nomatch hp) h
  | cons q ports ih =>
    by_cases hq : wellBound m current q
    · have h2 : ¬ ∀ p ∈ ports, wellBound m current p := by
        intro hall
        apply h
        intro p hp
        rcases List.mem_cons.mp hp with rfl | hp'
        · exact hq
        · exact hall p hp'
      obtain ⟨good, p, rest, hsplit, hgood, hp⟩ := ih h2
      refine ⟨q :: good, p, rest, by simp [hsplit], ?_, hp⟩
      intro r hr
      rcases List.mem_cons.mp hr with rfl | hr'
      · exact hq
      · exact hgood r hr'
    · exact ⟨[], q, ports, rfl, by simp, hq⟩

theorem split_at_index (m : Nat) (current : List T) (ports : List (InputPort T))
    (i : Nat)
    (hprev : ∀ j p, j < i → ports[j]? = some p → wellBound m current p)
    (hbad : ∃ p, ports[i]? = some p ∧ ¬ wellBound m current p) :
    ∃ p rest, ports = ports.take i ++ p :: rest ∧ (ports.take i).length = i ∧
      (∀ q ∈ ports.take i, wellBound m current q) ∧ ¬ wellBound m current p := by
  obtain ⟨p, hp, hpb⟩ := hbad
  obtain ⟨hi, hpi⟩ := List.getElem?_eq_some_iff.mp hp
  refine ⟨p, ports.drop (i + 1), ?_, ?_, ?_, hpb⟩
  · rw [← hpi, ← List.drop_eq_getElem_cons hi, List.take_append_drop]
  · rw [List.length_take]; omega
  · intro q hq
    obtain ⟨j, hj, hjq⟩ := List.getElem_of_mem hq
    rw [List.length_take] at hj
    have hj1 : j < i := by omega
    have hj2 : j < ports.length := by omega
    apply hprev j q hj1
    rw [List.getElem_take] at hjq
    rw [List.getElem?_eq_getElem hj2, hjq]

theorem index_of_split (ports good : List (InputPort T)) (p : InputPort T)
    (rest : List (InputPort T)) (hsplit : ports = good ++ p :: rest) :
    (∀ j q, j < good.length → ports[j]? = some q → q ∈ good) ∧
      ports[good.length]? = some p ∧ ports.take good.length = good := by
  subst hsplit
  refine ⟨?_, ?_, ?_⟩
  · intro j q hj hq
    rw [List.getElem?_append_left hj] at hq
    obtain ⟨h, hq2⟩ := List.getElem?_eq_some_iff.mp hq
    rw [← hq2]
    exact List.getElem_mem h
  · rw [List.getElem?_append_right (Nat.le_refl _)]
    simp
  · simp

theorem elementwiseSum_nil [AddMonoid T] (m : Nat) :
    elementwiseSum m ([] : List (List T)) = List.replicate m 0 := by
  rw [← accumulate_zero_eq_elementwiseSum m [] (by simp)]
  rfl

theorem elementwiseSumInOrder_nil [Zero T] [Add T] (m : Nat) :
    elementwiseSumInOrder m ([] : List (List T)) = List.replicate m 0 := by
  rw [← accumulate_zero_eq_elementwiseSumInOrder m [] (by simp)]
  rfl

/-! ## `Output` on a well-shaped output -/

theorem Output_mismatch [Zero T] [Add T] (a : Adder) (context : Context T)
    (value : List T) (hvalue : value.length = a.length_)
    (hk : context.input.continuous_ports.length ≠ a.num_inputs_) :
    Output a context (outputHolding value) =
      (outputHolding (List.replicate a.length_ 0),
        Outcome.threw
          ⟨portCountMessage a.num_inputs_ context.input.continuous_ports.length⟩) := by
  simp [Output, outputHolding, hvalue, hk]

theorem Output_loop [Zero T] [Add T] (a : Adder) (context : Context T)
    (value : List T) (hvalue : value.length = a.length_)
    (hk : context.input.continuous_ports.length = a.num_inputs_) :
    Output a context (outputHolding value) =
      (outputHolding
          (sumLoop a.length_ context.input.continuous_ports 0 (List.replicate a.length_ 0)).1,
        (sumLoop a.length_ context.input.continuous_ports 0 (List.replicate a.length_ 0)).2) := by
  simp [Output, outputHolding, hvalue, hk]

theorem Output_all_wellBound [Zero T] [Add T] (a : Adder) (context : Context T)
    (value : List T) (hvalue : value.length = a.length_)
    (hslots : context.input.continuous_ports.length = a.num_inputs_)
    (hbound : ∀ p ∈ context.input.continuous_ports, wellBound a.length_ value p) :
    Output a context (outputHolding value) =
      (outputHolding (runSlots (List.replicate a.length_ 0) context.input.continuous_ports),
        Outcome.returned) := by
  have hb : ∀ p ∈ context.input.continuous_ports,
      wellBound a.length_ (List.replicate a.length_ (0 : T)) p :=
    fun p hp => (wellBound_congr a.length_ _ _ p (by simp [hvalue])).mp (hbound p hp)
  rw [Output_loop a context value hvalue hslots,
    sumLoop_all_wellBound a.length_ _ 0 _ (by simp) hb]

theorem Output_first_bad [Zero T] [Add T] (a : Adder) (context : Context T)
    (value : List T) (i : Nat) (hvalue : value.length = a.length_)
    (hslots : context.input.continuous_ports.length = a.num_inputs_)
    (hprev : ∀ j p, j < i → context.input.continuous_ports[j]? = some p →
      wellBound a.length_ value p)
    (hbad : ∃ p, context.input.continuous_ports[i]? = some p ∧
      ¬ wellBound a.length_ value p) :
    Output a context (outputHolding value) =
      (outputHolding
          (runSlots (List.replicate a.length_ 0) (context.input.continuous_ports.take i)),
        Outcome.threw ⟨badInputMessage i⟩) ∧
      ∀ q ∈ context.input.continuous_ports.take i, wellBound a.length_ value q := by
  obtain ⟨p, rest, hsplit, hlen, hgood, hp⟩ :=
    split_at_index a.length_ value context.input.continuous_ports i hprev hbad
  have hc : value.length = (List.replicate a.length_ (0 : T)).length := by simp [hvalue]
  have hloop := sumLoop_first_bad a.length_ _ p rest 0
    (List.replicate a.length_ (0 : T)) (by simp)
    (fun q hq => (wellBound_congr a.length_ _ _ q hc).mp (hgood q hq))
    (fun hq => hp ((wellBound_congr a.length_ _ _ p hc).mpr hq))
  rw [← hsplit, hlen, Nat.zero_add] at hloop
  refine ⟨?_, hgood⟩
  rw [Output_loop a context value hvalue hslots, hloop]

/-- Without aliasing, what the loop leaves after the slots `ports` is their elementwise
sum added in slot order onto the zero vector. -/
theorem runSlots_zero_eq_inOrder [Zero T] [Add T] (m : Nat) (current : List T)
    (ports : List (InputPort T)) (hbound : ∀ p ∈ ports, wellBound m current p)
    (hfree : ∀ p ∈ ports, ¬ aliasesOutput p) :
    runSlots (List.replicate m 0) ports =
      elementwiseSumInOrder m (boundVectors current ports) := by
  rw [runSlots_of_not_aliased ports _ current hfree,
    accumulate_zero_eq_elementwiseSumInOrder m _ (boundVectors_length m current _ hbound)]

theorem runSlots_zero_eq_elementwiseSum [AddMonoid T] (m : Nat) (current : List T)
    (ports : List (InputPort T)) (hbound : ∀ p ∈ ports, wellBound m current p)
    (hfree : ∀ p ∈ ports, ¬ aliasesOutput p) :
    runSlots (List.replicate m 0) ports =
      elementwiseSum m (boundVectors current ports) := by
  rw [runSlots_of_not_aliased ports _ current hfree,
    accumulate_zero_eq_elementwiseSum m _ (boundVectors_length m current _ hbound)]

/-! ## Evaluation on a fully valid context -/

/-- C1 (as stated) fails: a two-input Adder of length 1 whose slot 0 is bound to `[1]`
and whose slot 1 is bound to the output's own vector, holding `[5]`, is fully valid and
returns normally with `[2]`, which is neither the elementwise sum `[6]` of the input
vectors as they were before the call nor the sum `[3]` of what they hold after it. -/
theorem Output_aliased_slot_not_sum :
    (([⟨some (VectorPointer.external [1])⟩, ⟨some VectorPointer.output_port⟩] :
        List (InputPort ℤ)).length = 2 ∧
      ∀ p ∈ ([⟨some (VectorPointer.external [1])⟩, ⟨some VectorPointer.output_port⟩] :
        List (InputPort ℤ)), wellBound 1 [5] p) ∧
    Output (T := ℤ) ⟨2, 1⟩
        { input := { continuous_ports :=
            [⟨some (VectorPointer.external [1])⟩, ⟨some VectorPointer.output_port⟩] } }
        (outputHolding [5]) = (outputHolding [2], Outcome.returned) ∧
    ([2] : List ℤ) ≠ elementwiseSum 1
      (boundVectors [5]
        [⟨some (VectorPointer.external [1])⟩, ⟨some VectorPointer.output_port⟩]) ∧
    ([2] : List ℤ) ≠ elementwiseSum 1
      (boundVectors [2]
        [⟨some (VectorPointer.external [1])⟩, ⟨some VectorPointer.output_port⟩]) := by
  decide

/-- C1 (amended): for an Adder with `num_inputs_ = n` and `length_ = m`, a context with
exactly `n` slots each bound to a vector of length `m`, none of them the vector owned by
the output's own port, and an output with one port holding a vector of length `m`,
`Output` returns normally and the output vector afterwards is the elementwise sum of the
`n` input vectors in slot order, over exact arithmetic (this needs no lower bound on
`m`, so it holds in particular for every `m > 0`). -/
theorem Output_sums_inputs [AddMonoid T] (a : Adder) (context : Context T)
    (value : List T)
    (hslots : context.input.continuous_ports.length = a.num_inputs_)
    (hbound : ∀ p ∈ context.input.continuous_ports, wellBound a.length_ value p)
    (hfree : ∀ p ∈ context.input.continuous_ports, ¬ aliasesOutput p)
    (hvalue : value.length = a.length_) :
    Output a context (outputHolding value) =
      (outputHolding
          (elementwiseSum a.length_ (boundVectors value context.input.continuous_ports)),
        Outcome.returned) ∧
      (boundVectors value context.input.continuous_ports).length = a.num_inputs_ := by
  constructor
  · rw [Output_all_wellBound a context value hvalue hslots hbound,
      runSlots_zero_eq_elementwiseSum a.length_ value _ hbound hfree]
  · rw [boundVectors_length_eq a.length_ value _ hbound, hslots]

/-- Scenario A of the spec: `n = 2`, `m = 3`, inputs `[1,2,3]` and `[4,5,6]` give
`[5,7,9]`, whatever the output held before. -/
theorem Output_sums_inputs_witness :
    Output (T := ℤ) ⟨2, 3⟩
        { input := { continuous_ports :=
            [⟨some (VectorPointer.external [1, 2, 3])⟩,
              ⟨some (VectorPointer.external [4, 5, 6])⟩] } }
        (outputHolding [9, 9, 9]) =
      (outputHolding [5, 7, 9], Outcome.returned) :=
  (Output_sums_inputs (T := ℤ) ⟨2, 3⟩
    { input := { continuous_ports :=
        [⟨some (VectorPointer.external [1, 2, 3])⟩,
          ⟨some (VectorPointer.external [4, 5, 6])⟩] } }
    [9, 9, 9] (by decide) (by decide) (by decide) (by decide)).1

/-- C2: for a well-shaped output, `Output` returns normally if and only if the context
has exactly `num_inputs_` slots and every slot is bound to a vector of exactly `length_`
elements; in every other case it throws a `std::runtime_error`. -/
theorem Output_returns_iff [Zero T] [Add T] (a : Adder) (context : Context T)
    (value : List T) (hvalue : value.length = a.length_) :
    ((Output a context (outputHolding value)).2 = Outcome.returned ↔
      (context.input.continuous_ports.length = a.num_inputs_ ∧
        ∀ p ∈ context.input.continuous_ports, wellBound a.length_ value p)) ∧
    (¬ (context.input.continuous_ports.length = a.num_inputs_ ∧
        ∀ p ∈ context.input.continuous_ports, wellBound a.length_ value p) →
      ∃ e, (Output a context (outputHolding value)).2 = Outcome.threw e) := by
  have hc : (List.replicate a.length_ (0 : T)).length = value.length := by simp [hvalue]
  by_cases hk : context.input.continuous_ports.length = a.num_inputs_
  · by_cases hall : ∀ p ∈ context.input.continuous_ports, wellBound a.length_ value p
    · rw [Output_all_wellBound a context value hvalue hk hall]
      exact ⟨⟨fun _ => ⟨hk, hall⟩, fun _ => rfl⟩, fun h => absurd ⟨hk, hall⟩ h⟩
    · obtain ⟨good, p, rest, hsplit, hgood, hp⟩ :=
        exists_first_bad a.length_ value _ hall
      obtain ⟨hidx, hat, _⟩ := index_of_split _ good p rest hsplit
      have hfb := (Output_first_bad a context value good.length hvalue hk
        (fun j q hj hq => hgood q (hidx j q hj hq)) ⟨p, hat, hp⟩).1
      rw [hfb]
      refine ⟨⟨fun h => ?_, fun h => absurd h.2 hall⟩,
        fun _ => ⟨⟨badInputMessage good.length⟩, rfl⟩⟩
      cases h
  · rw [Output_mismatch a context value hvalue hk]
    refine ⟨⟨fun h => ?_, fun h => absurd h.1 hk⟩, fun _ => ⟨_, rfl⟩⟩
    cases h

/-- A one-input Adder whose single slot is bound to a vector that is too short: the
call does not return normally, it throws. -/
theorem Output_returns_iff_witness :
    ¬ ((([⟨some (VectorPointer.external [1])⟩] : List (InputPort ℤ)).length = 1 ∧
        ∀ p ∈ ([⟨some (VectorPointer.external [1])⟩] : List (InputPort ℤ)),
          wellBound 2 [0, 0] p)) ∧
    ∃ e, (Output (T := ℤ) ⟨1, 2⟩
      { input := { continuous_ports := [⟨some (VectorPointer.external [1])⟩] } }
      (outputHolding [0, 0])).2 = Outcome.threw e :=
  ⟨by decide,
    (Output_returns_iff (T := ℤ) ⟨1, 2⟩
      { input := { continuous_ports := [⟨some (VectorPointer.external [1])⟩] } }
      [0, 0] (by decide)).2 (by decide)⟩

/-- C3: when the number of slots `k` of the context differs from `num_inputs_ = n`,
`Output` throws the port-count-mismatch error, whose message carries both `n` and `k`
in decimal. -/
theorem Output_port_count_mismatch [Zero T] [Add T] (a : Adder) (context : Context T)
    (value : List T) (hvalue : value.length = a.length_)
    (hk : context.input.continuous_ports.length ≠ a.num_inputs_) :
    (Output a context (outputHolding value)).2 =
      Outcome.threw
        ⟨"Expected " ++ toString a.num_inputs_ ++ "input ports, but had " ++
          toString context.input.continuous_ports.length⟩ := by
  rw [Output_mismatch a context value hvalue hk]
  rfl

/-- Scenario C of the spec: `n = 3` with a 2-slot context reports expected 3, actual 2. -/
theorem Output_port_count_mismatch_witness :
    (Output (T := ℤ) ⟨3, 1⟩
        { input := { continuous_ports :=
            [⟨some (VectorPointer.external [1])⟩, ⟨some (VectorPointer.external [2])⟩] } }
        (outputHolding [0])).2 =
      Outcome.threw ⟨"Expected 3input ports, but had 2"⟩ :=
  Output_port_count_mismatch (T := ℤ) ⟨3, 1⟩
    { input := { continuous_ports :=
        [⟨some (VectorPointer.external [1])⟩, ⟨some (VectorPointer.external [2])⟩] } } [0]
    (by decide) (by decide)

/-- C4: when the context has exactly `num_inputs_` slots and `i` is the smallest index
whose slot is unbound or bound to a vector of length other than `length_`, `Output`
throws the bad-input-port error whose message carries the zero-based index `i`. -/
theorem Output_bad_input_port [Zero T] [Add T] (a : Adder) (context : Context T)
    (value : List T) (i : Nat) (hvalue : value.length = a.length_)
    (hslots : context.input.continuous_ports.length = a.num_inputs_)
    (hprev : ∀ j p, j < i → context.input.continuous_ports[j]? = some p →
      wellBound a.length_ value p)
    (hbad : ∃ p, context.input.continuous_ports[i]? = some p ∧
      ¬ wellBound a.length_ value p) :
    (Output a context (outputHolding value)).2 =
      Outcome.threw
        ⟨"Input port " ++ toString i ++ "is nullptr or has incorrect size."⟩ := by
  rw [(Output_first_bad a context value i hvalue hslots hprev hbad).1]
  rfl

/-- A three-input Adder whose slot 1 is mis-sized and whose slot 2 is unbound: the
error names index 1. -/
theorem Output_bad_input_port_witness :
    (Output (T := ℤ) ⟨3, 2⟩
        { input := { continuous_ports :=
            [⟨some (VectorPointer.external [1, 2])⟩, ⟨some (VectorPointer.external [3])⟩,
              ⟨none⟩] } }
        (outputHolding [0, 0])).2 =
      Outcome.threw ⟨"Input port 1is nullptr or has incorrect size."⟩ :=
  Output_bad_input_port (T := ℤ) ⟨3, 2⟩
    { input := { continuous_ports :=
        [⟨some (VectorPointer.external [1, 2])⟩, ⟨some (VectorPointer.external [3])⟩,
          ⟨none⟩] } }
    [0, 0] 1 (by decide) (by decide)
    (by
      intro j p hj hp
      have hj0 : j = 0 := by omega
      subst hj0
      simp at hp
      subst hp
      exact ⟨VectorPointer.external [1, 2], rfl, rfl⟩)
    ⟨⟨some (VectorPointer.external [3])⟩, rfl, by decide⟩

/-! ## The output after a failed call -/

/-- C5 (as stated) fails: a two-input Adder of length 1 whose slot 0 holds `[5]` and
whose slot 1 is unbound throws the bad-input-port error for index 1, and the output is
left holding `[5]`, not the zero vector. -/
theorem Output_failure_not_zeroed :
    Output (T := ℤ) ⟨2, 1⟩
        { input := { continuous_ports := [⟨some (VectorPointer.external [5])⟩, ⟨none⟩] } }
        (outputHolding [7]) =
      (outputHolding [5],
        Outcome.threw ⟨"Input port 1is nullptr or has incorrect size."⟩) ∧
    (outputHolding [5] : SystemOutput ℤ) ≠ outputHolding (List.replicate 1 0) := by
  decide

/-- C5 (amended): when `Output` fails on a well-shaped output, either the slot count
differs from `num_inputs_` and the output vector is left equal to the zero vector of
length `length_`, or the slot count is right and some slot `i` is the first unbound or
mis-sized one; then the output vector is left equal to the zero vector of length
`length_` when `i = 0`, and, when none of slots `0..i-1` is bound to the output's own
vector, to the elementwise sum of the input vectors of slots `0..i-1`, added in slot
order onto the zero vector. -/
theorem Output_failure_output [Zero T] [Add T] (a : Adder) (context : Context T)
    (value : List T) (hvalue : value.length = a.length_)
    (hfail : (Output a context (outputHolding value)).2 ≠ Outcome.returned) :
    (context.input.continuous_ports.length ≠ a.num_inputs_ ∧
      (Output a context (outputHolding value)).1 =
        outputHolding (List.replicate a.length_ 0)) ∨
    (context.input.continuous_ports.length = a.num_inputs_ ∧
      ∃ i, (∀ j p, j < i → context.input.continuous_ports[j]? = some p →
            wellBound a.length_ value p) ∧
        (∃ p, context.input.continuous_ports[i]? = some p ∧
          ¬ wellBound a.length_ value p) ∧
        (i = 0 → (Output a context (outputHolding value)).1 =
          outputHolding (List.replicate a.length_ 0)) ∧
        ((∀ j p, j < i → context.input.continuous_ports[j]? = some p →
            ¬ aliasesOutput p) →
          (Output a context (outputHolding value)).1 =
            outputHolding
              (elementwiseSumInOrder a.length_
                (boundVectors value (context.input.continuous_ports.take i))))) := by
  by_cases hk : context.input.continuous_ports.length = a.num_inputs_
  · right
    refine ⟨hk, ?_⟩
    have hall : ¬ ∀ p ∈ context.input.continuous_ports, wellBound a.length_ value p := by
      intro hall
      apply hfail
      rw [Output_all_wellBound a context value hvalue hk hall]
    obtain ⟨good, p, rest, hsplit, hgood, hp⟩ := exists_first_bad a.length_ value _ hall
    obtain ⟨hidx, hat, htake⟩ := index_of_split _ good p rest hsplit
    have hprev : ∀ j q, j < good.length → context.input.continuous_ports[j]? = some q →
        wellBound a.length_ value q := fun j q hj hq => hgood q (hidx j q hj hq)
    have hfb := (Output_first_bad a context value good.length hvalue hk hprev
      ⟨p, hat, hp⟩).1
    refine ⟨good.length, hprev, ⟨p, hat, hp⟩, ?_, ?_⟩
    · intro h0
      rw [hfb, h0]
      rfl
    · intro hfree
      have hfree2 : ∀ q ∈ context.input.continuous_ports.take good.length,
          ¬ aliasesOutput q := by
        intro q hq
        rw [htake] at hq
        obtain ⟨j, hj, hjq⟩ := List.getElem_of_mem hq
        apply hfree j q hj
        rw [hsplit, List.getElem?_append_left hj, List.getElem?_eq_getElem hj, hjq]
      rw [hfb, runSlots_zero_eq_inOrder a.length_ value _ (by rw [htake]; exact hgood)
        hfree2]
  · left
    refine ⟨hk, ?_⟩
    rw [Output_mismatch a context value hvalue hk]

/-- A failed call whose first bad slot is slot 1: the call does not return normally and
one of the two cases of the amended C5 holds. -/
theorem Output_failure_output_witness :
    (Output (T := ℤ) ⟨2, 1⟩
        { input := { continuous_ports := [⟨some (VectorPointer.external [5])⟩, ⟨none⟩] } }
        (outputHolding [7])).2 ≠ Outcome.returned ∧
    ((([⟨some (VectorPointer.external [5])⟩, ⟨none⟩] : List (InputPort ℤ)).length ≠ 2 ∧
      (Output (T := ℤ) ⟨2, 1⟩
        { input := { continuous_ports := [⟨some (VectorPointer.external [5])⟩, ⟨none⟩] } }
        (outputHolding [7])).1 = outputHolding (List.replicate 1 0)) ∨
    (([⟨some (VectorPointer.external [5])⟩, ⟨none⟩] : List (InputPort ℤ)).length = 2 ∧
      ∃ i, (∀ j p, j < i →
            ([⟨some (VectorPointer.external [5])⟩, ⟨none⟩] : List (InputPort ℤ))[j]? =
              some p → wellBound 1 [7] p) ∧
        (∃ p, ([⟨some (VectorPointer.external [5])⟩, ⟨none⟩] : List (InputPort ℤ))[i]? =
            some p ∧ ¬ wellBound 1 [7] p) ∧
        (i = 0 → (Output (T := ℤ) ⟨2, 1⟩
            { input := { continuous_ports :=
                [⟨some (VectorPointer.external [5])⟩, ⟨none⟩] } }
            (outputHolding [7])).1 = outputHolding (List.replicate 1 0)) ∧
        ((∀ j p, j < i →
            ([⟨some (VectorPointer.external [5])⟩, ⟨none⟩] : List (InputPort ℤ))[j]? =
              some p → ¬ aliasesOutput p) →
          (Output (T := ℤ) ⟨2, 1⟩
            { input := { continuous_ports :=
                [⟨some (VectorPointer.external [5])⟩, ⟨none⟩] } }
            (outputHolding [7])).1 =
          outputHolding
            (elementwiseSumInOrder 1
              (boundVectors [7]
                (([⟨some (VectorPointer.external [5])⟩, ⟨none⟩] :
                  List (InputPort ℤ)).take i)))))) :=
  ⟨by decide,
    Output_failure_output (T := ℤ) ⟨2, 1⟩
      { input := { continuous_ports := [⟨some (VectorPointer.external [5])⟩, ⟨none⟩] } }
      [7] (by decide) (by decide)⟩

/-! ## Special cases and repeated evaluation -/

/-- C6: for an Adder with `num_inputs_ = 0` and any `length_ = m` (in particular any
`m > 0`), `Output` on a context with zero slots and a well-shaped output returns
normally and leaves the output equal to the zero vector of length `m`, whatever the
output vector held before the call. -/
theorem Output_no_inputs [Zero T] [Add T] (m : Nat) (context : Context T)
    (value : List T) (hvalue : value.length = m)
    (hctx : context.input.continuous_ports = []) :
    Output ⟨0, m⟩ context (outputHolding value) =
      (outputHolding (List.replicate m 0), Outcome.returned) := by
  simp [Output, outputHolding, hvalue, hctx, sumLoop]

/-- A zero-input Adder of length 3 overwrites `[4, 5, 6]` with `[0, 0, 0]`. -/
theorem Output_no_inputs_witness :
    Output (T := ℤ) ⟨0, 3⟩ { input := { continuous_ports := [] } }
        (outputHolding [4, 5, 6]) =
      (outputHolding [0, 0, 0], Outcome.returned) :=
  Output_no_inputs (T := ℤ) 3 { input := { continuous_ports := [] } } [4, 5, 6]
    (by decide) rfl

/-- C7: for a fully valid context (exactly `num_inputs_` slots, each bound to a vector
of length `length_`) and a well-shaped output, calling `Output` a second time on the
output object left by the first call, with the context unchanged, returns normally
again and leaves the same output as the first call did. -/
theorem Output_idempotent [Zero T] [Add T] (a : Adder) (context : Context T)
    (value : List T)
    (hslots : context.input.continuous_ports.length = a.num_inputs_)
    (hbound : ∀ p ∈ context.input.continuous_ports, wellBound a.length_ value p)
    (hvalue : value.length = a.length_) :
    (Output a context (outputHolding value)).2 = Outcome.returned ∧
      Output a context (Output a context (outputHolding value)).1 =
        Output a context (outputHolding value) := by
  have hfirst := Output_all_wellBound a context value hvalue hslots hbound
  have hb : ∀ p ∈ context.input.continuous_ports,
      wellBound a.length_ (List.replicate a.length_ (0 : T)) p :=
    fun p hp => (wellBound_congr a.length_ _ _ p (by simp [hvalue])).mp (hbound p hp)
  have hlen : (runSlots (List.replicate a.length_ (0 : T))
      context.input.continuous_ports).length = a.length_ :=
    runSlots_length a.length_ _ _ (by simp) hb
  have hb2 : ∀ p ∈ context.input.continuous_ports,
      wellBound a.length_
        (runSlots (List.replicate a.length_ (0 : T)) context.input.continuous_ports) p :=
    fun p hp => (wellBound_congr a.length_ _ _ p (by rw [hlen, hvalue])).mp (hbound p hp)
  rw [hfirst]
  refine ⟨rfl, ?_⟩
  rw [Output_all_wellBound a context _ hlen hslots hb2]

/-- Scenario A evaluated twice: the second call gives `[5, 7, 9]` again, not
`[10, 14, 18]`. -/
theorem Output_idempotent_witness :
    (Output (T := ℤ) ⟨2, 3⟩
        { input := { continuous_ports :=
            [⟨some (VectorPointer.external [1, 2, 3])⟩,
              ⟨some (VectorPointer.external [4, 5, 6])⟩] } }
        (outputHolding [9, 9, 9])).2 = Outcome.returned ∧
      Output (T := ℤ) ⟨2, 3⟩
          { input := { continuous_ports :=
              [⟨some (VectorPointer.external [1, 2, 3])⟩,
                ⟨some (VectorPointer.external [4, 5, 6])⟩] } }
          (Output (T := ℤ) ⟨2, 3⟩
            { input := { continuous_ports :=
                [⟨some (VectorPointer.external [1, 2, 3])⟩,
                  ⟨some (VectorPointer.external [4, 5, 6])⟩] } }
            (outputHolding [9, 9, 9])).1 =
        Output (T := ℤ) ⟨2, 3⟩
          { input := { continuous_ports :=
              [⟨some (VectorPointer.external [1, 2, 3])⟩,
                ⟨some (VectorPointer.external [4, 5, 6])⟩] } }
          (outputHolding [9, 9, 9]) :=
  Output_idempotent (T := ℤ) ⟨2, 3⟩
    { input := { continuous_ports :=
        [⟨some (VectorPointer.external [1, 2, 3])⟩,
          ⟨some (VectorPointer.external [4, 5, 6])⟩] } }
    [9, 9, 9] (by decide) (by decide) (by decide)

/-! ## Allocation -/

/-- C8: `CreateDefaultContext` returns a context whose input-port sequence has exactly
`num_inputs_` slots, every one of them unbound. -/
theorem CreateDefaultContext_unbound_slots (a : Adder) :
    (CreateDefaultContext a : Context T).input.continuous_ports.length = a.num_inputs_ ∧
      ∀ p ∈ (CreateDefaultContext a : Context T).input.continuous_ports,
        p.input = none := by
  constructor
  · simp [CreateDefaultContext, resize]
  · intro p hp
    simp [CreateDefaultContext, resize] at hp
    rw [hp.2]

/-- C9: `CreateDefaultOutput` returns an output with exactly one port whose owned vector
has exactly `length_` elements, all equal to zero. -/
theorem CreateDefaultOutput_one_zero_port [Zero T] (a : Adder) :
    ∃ v : List T, (CreateDefaultOutput a : SystemOutput T).continuous_ports =
        [{ output := some v }] ∧
      v.length = a.length_ ∧ ∀ x ∈ v, x = 0 := by
  refine ⟨List.replicate a.length_ 0, rfl, by simp, ?_⟩
  intro x hx
  exact (List.mem_replicate.mp hx).2

/-- C10: for an Adder with `num_inputs_ ≥ 1`, `Output` on the context returned by
`CreateDefaultContext` (no slot bound) and the output returned by `CreateDefaultOutput`
throws the bad-input-port error naming port index 0. -/
theorem Output_default_context_fails [Zero T] [Add T] (a : Adder)
    (hn : 1 ≤ a.num_inputs_) :
    (Output a (CreateDefaultContext a) (CreateDefaultOutput a : SystemOutput T)).2 =
      Outcome.threw ⟨"Input port 0is nullptr or has incorrect size."⟩ := by
  obtain ⟨n, m⟩ := a
  obtain ⟨k, rfl⟩ : ∃ k, n = k + 1 := ⟨n - 1, by simp at hn; omega⟩
  have hmsg : badInputMessage 0 = "Input port 0is nullptr or has incorrect size." := by
    decide
  simp [Output, CreateDefaultContext, CreateDefaultOutput, BasicVector, resize,
    List.replicate_succ, sumLoop, hmsg]

/-- Scenario B of the spec: `n = 1`, `m = 2`, the single port left unbound. -/
theorem Output_default_context_fails_witness :
    1 ≤ (⟨1, 2⟩ : Adder).num_inputs_ ∧
    (Output ⟨1, 2⟩ (CreateDefaultContext ⟨1, 2⟩)
        (CreateDefaultOutput ⟨1, 2⟩ : SystemOutput ℤ)).2 =
      Outcome.threw ⟨"Input port 0is nullptr or has incorrect size."⟩ :=
  ⟨by decide, Output_default_context_fails (T := ℤ) ⟨1, 2⟩ (by decide)⟩

/-! ## Further facts about the two error messages and list prefixes -/

theorem portCountMessage_ne_badInputMessage (n k j : Nat) :
    portCountMessage n k ≠ badInputMessage j := by
  intro h
  have h2 := congrArg String.data h
  simp [portCountMessage, badInputMessage, String.data_append] at h2

theorem getElem?_of_take_eq {α : Type} (l l2 : List α) (i j : Nat) (hj : j < i + 1)
    (h : l2.take (i + 1) = l.take (i + 1)) : l2[j]? = l[j]? := by
  have h1 : (l2.take (i + 1))[j]? = (l.take (i + 1))[j]? := by rw [h]
  simpa [List.getElem?_take, hj] using h1

theorem take_of_take_succ_eq {α : Type} (l l2 : List α) (i : Nat)
    (h : l2.take (i + 1) = l.take (i + 1)) : l2.take i = l.take i := by
  have h1 : (l2.take (i + 1)).take i = (l.take (i + 1)).take i := by rw [h]
  simpa [List.take_take] using h1

/-! ## Where a failing evaluation stops -/

/-- C11 (as stated) fails: a three-input Adder of length 1 whose slot 0 is bound to
`[1]`, whose slot 1 is bound to the output's own vector, holding `[5]`, and whose slot 2
is unbound has its first bad slot at index 2 and throws the bad-input-port error for
index 2 with the output holding `[2]`, which is neither the elementwise sum `[6]` of the
vectors of slots 0 and 1 as they were before the call nor the sum `[3]` of what they hold
when the error is raised. -/
theorem Output_aliased_slot_not_partial_sum :
    (∀ p ∈ ([⟨some (VectorPointer.external [1])⟩, ⟨some VectorPointer.output_port⟩] :
        List (InputPort ℤ)), wellBound 1 [5] p) ∧
    ¬ wellBound 1 [5] (⟨none⟩ : InputPort ℤ) ∧
    Output (T := ℤ) ⟨3, 1⟩
        { input := { continuous_ports :=
            [⟨some (VectorPointer.external [1])⟩, ⟨some VectorPointer.output_port⟩,
              ⟨none⟩] } }
        (outputHolding [5]) =
      (outputHolding [2],
        Outcome.threw ⟨"Input port 2is nullptr or has incorrect size."⟩) ∧
    ([2] : List ℤ) ≠ elementwiseSum 1
      (boundVectors [5]
        [⟨some (VectorPointer.external [1])⟩, ⟨some VectorPointer.output_port⟩]) ∧
    ([2] : List ℤ) ≠ elementwiseSum 1
      (boundVectors [2]
        [⟨some (VectorPointer.external [1])⟩, ⟨some VectorPointer.output_port⟩]) := by
  decide

/-- C11 (amended): when the context has exactly `num_inputs_` slots and its first unbound
or mis-sized slot is at index `i`, `Output` throws the bad-input-port error for `i`, and
its result is the same for every other context with `num_inputs_` slots that agrees on
slots `0..i`, whatever slots `i+1..n-1` hold: no slot from index `i` on is added.  When
none of slots `0..i-1` is bound to the output's own vector, the output vector is then the
elementwise sum of exactly the `i` input vectors of slots `0..i-1`, added in slot order
onto the zero vector. -/
theorem Output_aborts_at_first_bad [Zero T] [Add T] (a : Adder)
    (context context2 : Context T)
    (value : List T) (i : Nat) (hvalue : value.length = a.length_)
    (hslots : context.input.continuous_ports.length = a.num_inputs_)
    (hprev : ∀ j p, j < i → context.input.continuous_ports[j]? = some p →
      wellBound a.length_ value p)
    (hbad : ∃ p, context.input.continuous_ports[i]? = some p ∧
      ¬ wellBound a.length_ value p)
    (hslots2 : context2.input.continuous_ports.length = a.num_inputs_)
    (hsame : context2.input.continuous_ports.take (i + 1) =
      context.input.continuous_ports.take (i + 1)) :
    (Output a context (outputHolding value)).2 =
      Outcome.threw ⟨"Input port " ++ toString i ++ "is nullptr or has incorrect size."⟩ ∧
    Output a context2 (outputHolding value) = Output a context (outputHolding value) ∧
    ((∀ j p, j < i → context.input.continuous_ports[j]? = some p → ¬ aliasesOutput p) →
      (Output a context (outputHolding value)).1 =
        outputHolding
          (elementwiseSumInOrder a.length_
            (boundVectors value (context.input.continuous_ports.take i))) ∧
      (boundVectors value (context.input.continuous_ports.take i)).length = i) := by
  obtain ⟨h1, hgood⟩ := Output_first_bad a context value i hvalue hslots hprev hbad
  have hprev2 : ∀ j p, j < i → context2.input.continuous_ports[j]? = some p →
      wellBound a.length_ value p := by
    intro j p hj hp
    rw [getElem?_of_take_eq _ _ i j (by omega) hsame] at hp
    exact hprev j p hj hp
  have hbad2 : ∃ p, context2.input.continuous_ports[i]? = some p ∧
      ¬ wellBound a.length_ value p := by
    rw [getElem?_of_take_eq _ _ i i (by omega) hsame]
    exact hbad
  have h2 := (Output_first_bad a context2 value i hvalue hslots2 hprev2 hbad2).1
  refine ⟨by rw [h1]; rfl, ?_, ?_⟩
  · rw [h1, h2, take_of_take_succ_eq _ _ i hsame]
  · intro hfree
    have hfree2 : ∀ q ∈ context.input.continuous_ports.take i, ¬ aliasesOutput q := by
      intro q hq
      obtain ⟨j, hj, hjq⟩ := List.getElem_of_mem hq
      rw [List.length_take] at hj
      have hj1 : j < i := by omega
      have hj2 : j < context.input.continuous_ports.length := by omega
      apply hfree j q hj1
      rw [List.getElem_take] at hjq
      rw [List.getElem?_eq_getElem hj2, hjq]
    obtain ⟨_, hi, _⟩ := hbad
    have hilt : i < context.input.continuous_ports.length :=
      (List.getElem?_eq_some_iff.mp hi).1
    refine ⟨?_, ?_⟩
    · rw [h1, runSlots_zero_eq_inOrder a.length_ value _ hgood hfree2]
    · rw [boundVectors_length_eq a.length_ value _ hgood, List.length_take]
      omega

/-- A three-input Adder of length 2 whose slot 1 is mis-sized: the output is left
holding the vector of slot 0, whether slot 2 is unbound or bound to `[7, 8]`. -/
theorem Output_aborts_at_first_bad_witness :
    Output (T := ℤ) ⟨3, 2⟩
        { input := { continuous_ports :=
            [⟨some (VectorPointer.external [1, 2])⟩, ⟨some (VectorPointer.external [3])⟩,
              ⟨some (VectorPointer.external [7, 8])⟩] } }
        (outputHolding [0, 0]) =
      Output (T := ℤ) ⟨3, 2⟩
        { input := { continuous_ports :=
            [⟨some (VectorPointer.external [1, 2])⟩, ⟨some (VectorPointer.external [3])⟩,
              ⟨none⟩] } }
        (outputHolding [0, 0]) ∧
    (Output (T := ℤ) ⟨3, 2⟩
        { input := { continuous_ports :=
            [⟨some (VectorPointer.external [1, 2])⟩, ⟨some (VectorPointer.external [3])⟩,
              ⟨none⟩] } }
        (outputHolding [0, 0])).1 = outputHolding [1, 2] :=
  have h := Output_aborts_at_first_bad (T := ℤ) ⟨3, 2⟩
    { input := { continuous_ports :=
        [⟨some (VectorPointer.external [1, 2])⟩, ⟨some (VectorPointer.external [3])⟩,
          ⟨none⟩] } }
    { input := { continuous_ports :=
        [⟨some (VectorPointer.external [1, 2])⟩, ⟨some (VectorPointer.external [3])⟩,
          ⟨some (VectorPointer.external [7, 8])⟩] } }
    [0, 0] 1 (by decide) (by decide)
    (by
      intro j p hj hp
      have hj0 : j = 0 := by omega
      subst hj0
      simp at hp
      subst hp
      exact ⟨VectorPointer.external [1, 2], rfl, rfl⟩)
    ⟨⟨some (VectorPointer.external [3])⟩, rfl, by decide⟩ (by decide) (by decide)
  ⟨h.2.1,
    (h.2.2 (by
      intro j p hj hp
      have hj0 : j = 0 := by omega
      subst hj0
      simp at hp
      subst hp
      decide)).1⟩

/-- C12: when the slot count of the context differs from `num_inputs_`, `Output` throws
the port-count-mismatch error, never the bad-input-port error for any index, whatever
the slots hold, and the output vector is then the zero vector of length `length_`: no
input vector has been added to it. -/
theorem Output_arity_check_first [Zero T] [Add T] (a : Adder) (context : Context T)
    (value : List T) (hvalue : value.length = a.length_)
    (hk : context.input.continuous_ports.length ≠ a.num_inputs_) :
    Output a context (outputHolding value) =
      (outputHolding (List.replicate a.length_ 0),
        Outcome.threw
          ⟨"Expected " ++ toString a.num_inputs_ ++ "input ports, but had " ++
            toString context.input.continuous_ports.length⟩) ∧
      ∀ j : Nat, (Output a context (outputHolding value)).2 ≠
        Outcome.threw ⟨"Input port " ++ toString j ++ "is nullptr or has incorrect size."⟩ := by
  have h := Output_mismatch a context value hvalue hk
  refine ⟨h, ?_⟩
  intro j hj
  rw [h] at hj
  injection hj with hj
  injection hj with hj
  exact portCountMessage_ne_badInputMessage _ _ j hj

/-- A three-input Adder given two slots, the first bound and the second unbound: the
error is the port-count mismatch and the output is zeroed. -/
theorem Output_arity_check_first_witness :
    Output (T := ℤ) ⟨3, 1⟩
        { input := { continuous_ports := [⟨some (VectorPointer.external [5])⟩, ⟨none⟩] } }
        (outputHolding [7]) =
      (outputHolding [0], Outcome.threw ⟨"Expected 3input ports, but had 2"⟩) :=
  (Output_arity_check_first (T := ℤ) ⟨3, 1⟩
    { input := { continuous_ports := [⟨some (VectorPointer.external [5])⟩, ⟨none⟩] } } [7]
    (by decide) (by decide)).1

/-! ## The structural assertions -/

theorem sumLoop_ne_assertion_failed [Add T] (m : Nat) (ports : List (InputPort T)) :
    ∀ (i : Nat) (value : List T),
      (sumLoop m ports i value).2 ≠ Outcome.assertion_failed := by
  induction ports with
  | nil => intro i value h; simp [sumLoop] at h
  | cons p ports ih =>
    intro i value
    cases hin : p.input with
    | none => simp [sumLoop, hin]
    | some ptr =>
      by_cases hl : (ptr.get_value value).length = m
      · simpa [sumLoop, hin, hl] using
          ih (i + 1) (List.zipWith (· + ·) value (ptr.get_value value))
      · simp [sumLoop, hin, hl]

theorem structuralAssertions_outputHolding (a : Adder) (value : List T)
    (hvalue : value.length = a.length_) :
    structuralAssertions a (outputHolding value) = true := by
  simp [structuralAssertions, outputHolding, hvalue]

theorem Output_outputHolding_shape [Zero T] [Add T] (a : Adder) (context : Context T)
    (value : List T) (hvalue : value.length = a.length_) :
    ∃ v : List T, (Output a context (outputHolding value)).1 = outputHolding v ∧
      v.length = a.length_ ∧
      (Output a context (outputHolding value)).2 ≠ Outcome.assertion_failed := by
  by_cases hk : context.input.continuous_ports.length = a.num_inputs_
  · rw [Output_loop a context value hvalue hk]
    exact ⟨_, rfl, sumLoop_length a.length_ _ 0 _ (by simp),
      sumLoop_ne_assertion_failed a.length_ _ 0 _⟩
  · rw [Output_mismatch a context value hvalue hk]
    exact ⟨_, rfl, by simp, by simp⟩

/-- The model's assertion-failure outcome of `Output` arises exactly when one of the
three structural assertions is violated. -/
theorem Output_assertion_failed_iff [Zero T] [Add T] (a : Adder) (context : Context T)
    (output : SystemOutput T) :
    (Output a context output).2 = Outcome.assertion_failed ↔
      structuralAssertions a output = false := by
  obtain ⟨ports⟩ := output
  match ports with
  | [] => simp [Output, structuralAssertions]
  | _ :: _ :: _ => simp [Output, structuralAssertions]
  | [⟨none⟩] => simp [Output, structuralAssertions]
  | [⟨some value⟩] =>
    by_cases hvalue : value.length = a.length_
    · obtain ⟨v, _, _, hne⟩ := Output_outputHolding_shape a context value hvalue
      have hs := structuralAssertions_outputHolding a value hvalue
      unfold outputHolding at hne hs
      simp [hne, hs]
    · simp [Output, structuralAssertions, hvalue]

/-- C13: the output returned by `CreateDefaultOutput` satisfies the three structural
assertions checked at the start of `Output` (exactly one port, the port's vector is
present, and the vector has exactly `length_` rows), so `Output` called on a freshly
allocated default output never ends in an assertion failure, whatever the context. -/
theorem CreateDefaultOutput_passes_assertions [Zero T] [Add T] (a : Adder) :
    ((CreateDefaultOutput a : SystemOutput T).continuous_ports.length = 1 ∧
      ∃ port0 value, (CreateDefaultOutput a : SystemOutput T).continuous_ports.head? =
          some port0 ∧ port0.output = some value ∧ value.length = a.length_) ∧
    structuralAssertions a (CreateDefaultOutput a : SystemOutput T) = true ∧
    ∀ context : Context T,
      (Output a context (CreateDefaultOutput a)).2 ≠ Outcome.assertion_failed := by
  have hs : structuralAssertions a (CreateDefaultOutput a : SystemOutput T) = true := by
    simp [structuralAssertions, CreateDefaultOutput, BasicVector]
  refine ⟨⟨rfl, ⟨_, _, rfl, rfl, by simp [BasicVector]⟩⟩, hs, ?_⟩
  intro context h
  rw [Output_assertion_failed_iff, hs] at h
  cases h

/-- C14: on an output with exactly one port holding a vector of length `length_`,
whether `Output` returns or throws, the output afterwards still has exactly one port
holding a vector of exactly `length_` elements; so the structural assertions hold again
and no later call of `Output` on the same output object ends in an assertion failure. -/
theorem Output_preserves_shape [Zero T] [Add T] (a : Adder) (context : Context T)
    (value : List T) (hvalue : value.length = a.length_) :
    (∃ v : List T, (Output a context (outputHolding value)).1 = outputHolding v ∧
      v.length = a.length_) ∧
    (Output a context (outputHolding value)).2 ≠ Outcome.assertion_failed ∧
    structuralAssertions a (Output a context (outputHolding value)).1 = true ∧
    ∀ context2 : Context T,
      (Output a context2 (Output a context (outputHolding value)).1).2 ≠
        Outcome.assertion_failed := by
  obtain ⟨v, hv, hlen, hne⟩ := Output_outputHolding_shape a context value hvalue
  have hs : structuralAssertions a (Output a context (outputHolding value)).1 = true := by
    rw [hv]
    exact structuralAssertions_outputHolding a v hlen
  refine ⟨⟨v, hv, hlen⟩, hne, hs, ?_⟩
  intro context2 h
  rw [Output_assertion_failed_iff, hs] at h
  cases h

/-- A failing call (slot 1 unbound) on a length-1 output leaves a one-port output
holding a length-1 vector. -/
theorem Output_preserves_shape_witness :
    ∃ v : List ℤ,
      (Output (T := ℤ) ⟨2, 1⟩
        { input := { continuous_ports := [⟨some (VectorPointer.external [5])⟩, ⟨none⟩] } }
        (outputHolding [7])).1 = outputHolding v ∧ v.length = 1 :=
  (Output_preserves_shape (T := ℤ) ⟨2, 1⟩
    { input := { continuous_ports := [⟨some (VectorPointer.external [5])⟩, ⟨none⟩] } }
    [7] (by decide)).1

/-! ## Hyperproperties of evaluation -/

/-- C15: two well-shaped outputs (one port, vector of length `length_`) that differ only
in the values their vectors hold give the same result under `Output` with the same Adder
and context: the same outcome (normal return or the same error) and the same final
output. -/
theorem Output_independent_of_prior_value [Zero T] [Add T] (a : Adder)
    (context : Context T) (value1 value2 : List T)
    (hvalue1 : value1.length = a.length_) (hvalue2 : value2.length = a.length_) :
    Output a context (outputHolding value1) = Output a context (outputHolding value2) := by
  by_cases hk : context.input.continuous_ports.length = a.num_inputs_
  · rw [Output_loop a context value1 hvalue1 hk, Output_loop a context value2 hvalue2 hk]
  · rw [Output_mismatch a context value1 hvalue1 hk,
      Output_mismatch a context value2 hvalue2 hk]

/-- Scenario A started from `[9, 9, 9]` and from `[0, -4, 100]` gives the same result. -/
theorem Output_independent_of_prior_value_witness :
    Output (T := ℤ) ⟨2, 3⟩
        { input := { continuous_ports :=
            [⟨some (VectorPointer.external [1, 2, 3])⟩,
              ⟨some (VectorPointer.external [4, 5, 6])⟩] } }
        (outputHolding [9, 9, 9]) =
      Output (T := ℤ) ⟨2, 3⟩
        { input := { continuous_ports :=
            [⟨some (VectorPointer.external [1, 2, 3])⟩,
              ⟨some (VectorPointer.external [4, 5, 6])⟩] } }
        (outputHolding [0, -4, 100]) :=
  Output_independent_of_prior_value (T := ℤ) ⟨2, 3⟩
    { input := { continuous_ports :=
        [⟨some (VectorPointer.external [1, 2, 3])⟩,
          ⟨some (VectorPointer.external [4, 5, 6])⟩] } }
    [9, 9, 9] [0, -4, 100] (by decide) (by decide)

/-- C16 (as stated) fails: for a two-input Adder of length 1, the context whose slot 0 is
bound to `[1]` and whose slot 1 is bound to the output's own vector is fully valid and
returns normally with `[2]`, while the context with the two slots swapped, a
permutation of it, returns normally with `[1]`. -/
theorem Output_aliased_slot_order_matters :
    (([⟨some (VectorPointer.external [1])⟩, ⟨some VectorPointer.output_port⟩] :
        List (InputPort ℤ)).length = 2 ∧
      ∀ p ∈ ([⟨some (VectorPointer.external [1])⟩, ⟨some VectorPointer.output_port⟩] :
        List (InputPort ℤ)), wellBound 1 [5] p) ∧
    ([⟨some VectorPointer.output_port⟩, ⟨some (VectorPointer.external [1])⟩] :
        List (InputPort ℤ)).Perm
      [⟨some (VectorPointer.external [1])⟩, ⟨some VectorPointer.output_port⟩] ∧
    Output (T := ℤ) ⟨2, 1⟩
        { input := { continuous_ports :=
            [⟨some (VectorPointer.external [1])⟩, ⟨some VectorPointer.output_port⟩] } }
        (outputHolding [5]) = (outputHolding [2], Outcome.returned) ∧
    Output (T := ℤ) ⟨2, 1⟩
        { input := { continuous_ports :=
            [⟨some VectorPointer.output_port⟩, ⟨some (VectorPointer.external [1])⟩] } }
        (outputHolding [5]) = (outputHolding [1], Outcome.returned) ∧
    (outputHolding [2] : SystemOutput ℤ) ≠ outputHolding [1] :=
  ⟨by decide, List.Perm.swap _ _ _, by decide, by decide, by decide⟩

/-- C16 (amended): over commutative exact arithmetic, for a fully valid context (exactly
`num_inputs_` slots, each bound to a vector of length `length_`) none of whose slots is
bound to the output's own vector, `Output` on any context whose slots are a permutation
of the original slots returns normally with the same output as on the original
context. -/
theorem Output_permutation_invariant [AddCommMonoid T] (a : Adder)
    (context context2 : Context T) (value : List T)
    (hslots : context.input.continuous_ports.length = a.num_inputs_)
    (hbound : ∀ p ∈ context.input.continuous_ports, wellBound a.length_ value p)
    (hfree : ∀ p ∈ context.input.continuous_ports, ¬ aliasesOutput p)
    (hvalue : value.length = a.length_)
    (hperm : context2.input.continuous_ports.Perm context.input.continuous_ports) :
    (Output a context (outputHolding value)).2 = Outcome.returned ∧
      Output a context2 (outputHolding value) = Output a context (outputHolding value) := by
  have hslots2 : context2.input.continuous_ports.length = a.num_inputs_ := by
    rw [hperm.length_eq, hslots]
  have hbound2 : ∀ p ∈ context2.input.continuous_ports, wellBound a.length_ value p :=
    fun p hp => hbound p (hperm.mem_iff.mp hp)
  have hfree2 : ∀ p ∈ context2.input.continuous_ports, ¬ aliasesOutput p :=
    fun p hp => hfree p (hperm.mem_iff.mp hp)
  have hsum : elementwiseSum a.length_ (boundVectors value context2.input.continuous_ports) =
      elementwiseSum a.length_ (boundVectors value context.input.continuous_ports) := by
    unfold elementwiseSum boundVectors
    apply List.map_congr_left
    intro j _
    exact List.Perm.sum_eq ((hperm.filterMap _).map _)
  rw [Output_all_wellBound a context value hvalue hslots hbound,
    Output_all_wellBound a context2 value hvalue hslots2 hbound2,
    runSlots_zero_eq_elementwiseSum a.length_ value _ hbound hfree,
    runSlots_zero_eq_elementwiseSum a.length_ value _ hbound2 hfree2, hsum]
  exact ⟨rfl, rfl⟩

/-- Scenario A with its two slots swapped gives `[5, 7, 9]` as well. -/
theorem Output_permutation_invariant_witness :
    Output (T := ℤ) ⟨2, 3⟩
        { input := { continuous_ports :=
            [⟨some (VectorPointer.external [4, 5, 6])⟩,
              ⟨some (VectorPointer.external [1, 2, 3])⟩] } }
        (outputHolding [9, 9, 9]) =
      Output (T := ℤ) ⟨2, 3⟩
        { input := { continuous_ports :=
            [⟨some (VectorPointer.external [1, 2, 3])⟩,
              ⟨some (VectorPointer.external [4, 5, 6])⟩] } }
        (outputHolding [9, 9, 9]) :=
  (Output_permutation_invariant (T := ℤ) ⟨2, 3⟩
    { input := { continuous_ports :=
        [⟨some (VectorPointer.external [1, 2, 3])⟩,
          ⟨some (VectorPointer.external [4, 5, 6])⟩] } }
    { input := { continuous_ports :=
        [⟨some (VectorPointer.external [4, 5, 6])⟩,
          ⟨some (VectorPointer.external [1, 2, 3])⟩] } }
    [9, 9, 9] (by decide) (by decide) (by decide) (by decide) (List.Perm.swap _ _ _)).2

end Adder
end systems
end drake
